import Mathlib

/-!
Verification development for the arxiv_alert repository
(src/arxiv_alert_cron_edited.py and relatives).

Python strings are modelled as lists of characters (`Str`); the helper
functions below (`splitOnChar`, `splitOnStr`, `stripChar`, `lowerStr`,
`subIn`, `joinSep`) mirror the corresponding Python string operations
used by the source.  Stateful code (the per-entry processing loop and
the pagination loop of `arxiv_alert`) is embedded as explicit state
passing; network calls are modelled as oracle functions passed in as
parameters.  Logging calls have no effect on program state and are
dropped (or kept as discarded bindings where the source computes a
value only to log it).
-/

/-- Python strings, modelled as lists of characters. -/
abbrev Str := List Char

/-- `startsWith pat s` holds when `pat` is an initial segment of `s`
(mirrors Python `s.startswith(pat)`). -/
def startsWith : Str → Str → Bool
  | [], _ => true
  | _ :: _, [] => false
  | a :: as, b :: bs => a == b && startsWith as bs

/-- `subIn needle haystack` mirrors the Python test `needle in haystack`
on strings: substring containment (the empty needle is contained in
everything). -/
def subIn (needle : Str) : Str → Bool
  | [] => needle.isEmpty
  | c :: rest => startsWith needle (c :: rest) || subIn needle rest

/-- Split on a single separator character; mirrors Python
`s.split(c)` for a one-character separator `c`. -/
def splitOnChar (c : Char) : Str → List Str
  | [] => [[]]
  | x :: rest =>
    if x == c then [] :: splitOnChar c rest
    else
      match splitOnChar c rest with
      | [] => [[x]]
      | h :: t => (x :: h) :: t

/-- Worker for `splitOnStr`; the fuel argument is consumed one unit per
character examined and never runs out when initialised with the length
of the input. -/
def splitOnStrGo (sep : Str) : Nat → Str → Str → List Str
  | _, [], acc => [acc]
  | 0, s, acc => [acc ++ s]
  | fuel + 1, c :: rest, acc =>
    if startsWith sep (c :: rest) then
      acc :: splitOnStrGo sep fuel (List.drop (sep.length - 1) rest) []
    else
      splitOnStrGo sep fuel rest (acc ++ [c])

/-- Split on a (non-empty, possibly multi-character) separator string;
mirrors Python `s.split(sep)`. -/
def splitOnStr (sep s : Str) : List Str := splitOnStrGo sep s.length s []

/-- Mirrors Python `s.strip(ch)` for a one-character strip set: removes
every leading and trailing occurrence of `ch`. -/
def stripChar (ch : Char) (s : Str) : Str :=
  ((s.dropWhile (· == ch)).reverse.dropWhile (· == ch)).reverse

/-- Mirrors Python `s.lower()` (ASCII case folding, which covers every
string the program compares). -/
def lowerStr (s : Str) : Str := s.map Char.toLower

/-- Mirrors Python `sep.join(parts)`. -/
def joinSep (sep : Str) : List Str → Str
  | [] => []
  | [x] => x
  | x :: y :: rest => x ++ sep ++ joinSep sep (y :: rest)

/-- Decimal digit to character (only digits 0-9 are produced by the
formatter below). -/
def digitChar : Nat → Char
  | 0 => '0' | 1 => '1' | 2 => '2' | 3 => '3' | 4 => '4'
  | 5 => '5' | 6 => '6' | 7 => '7' | 8 => '8' | _ => '9'

/-- Fuel-driven decimal rendering of a natural number. -/
def natToDigitsFuel : Nat → Nat → Str
  | 0, _ => []
  | fuel + 1, n =>
    if n < 10 then [digitChar n]
    else natToDigitsFuel fuel (n / 10) ++ [digitChar (n % 10)]

/-- Decimal rendering of a natural number (list of digit characters). -/
def natToDigits (n : Nat) : Str := natToDigitsFuel (n + 1) n

/-- Zero-padded decimal rendering to width `k`; models the fixed-width
fields of `strftime` formats such as `%Y`, `%m`, `%d`. -/
def padNat (k n : Nat) : Str :=
  List.replicate (k - (natToDigits n).length) '0' ++ natToDigits n

/-- Numeric value of a digit character. -/
def digitVal (c : Char) : Nat := c.toNat - '0'.toNat

/-- Numeric value of a string of digit characters (mirrors what Python
`int` computes on the digit groups matched by `strptime`). -/
def digitsToNat (s : Str) : Nat := s.foldl (fun a c => a * 10 + digitVal c) 0

/-- Calendar dates as produced by Python `datetime.date`. -/
structure PyDate where
  year : Nat
  month : Nat
  day : Nat
deriving DecidableEq, Repr

/-- Gregorian leap-year rule used by Python `datetime`. -/
def isLeapYear (y : Nat) : Bool := y % 4 == 0 && (y % 100 != 0 || y % 400 == 0)

/-- Number of days in a month, as enforced by the `datetime.date`
constructor. -/
def daysInMonth (y m : Nat) : Nat :=
  if m == 2 then (if isLeapYear y then 29 else 28)
  else if m == 4 || m == 6 || m == 9 || m == 11 then 30
  else 31

/-- Comparison `a <= b` on dates (Python `date` ordering). -/
def dateLe (a b : PyDate) : Bool :=
  a.year < b.year ||
  (a.year == b.year &&
    (a.month < b.month || (a.month == b.month && a.day ≤ b.day)))

/-- `datetime.strptime(s, "%Y-%m-%d").date()` wrapped in the
try/except of `parse_arxiv_date`: `some` on success, `none` when
`strptime` raises `ValueError`.  CPython `strptime` matches `%Y`
against exactly four digits, `%m` and `%d` against one or two digits
bounded by 12 and 31, requires the whole string to be consumed, and
the `datetime` constructor then validates the day against the month
length. -/
def strptimeYMD (s : Str) : Option PyDate :=
  match splitOnChar '-' s with
  | [ys, ms, ds] =>
    if ys.length == 4 && ys.all Char.isDigit &&
       (ms.length == 1 || ms.length == 2) && ms.all Char.isDigit &&
       (ds.length == 1 || ds.length == 2) && ds.all Char.isDigit then
      let y := digitsToNat ys
      let m := digitsToNat ms
      let d := digitsToNat ds
      if 1 ≤ y && 1 ≤ m && m ≤ 12 && 1 ≤ d && d ≤ daysInMonth y m then
        some ⟨y, m, d⟩
      else none
    else none
  | _ => none

/-- `parse_arxiv_date` (src/arxiv_alert_cron_edited.py lines 123-129):
`datetime.strptime(date_str.split('T')[0], '%Y-%m-%d').date()` with
`ValueError` and `AttributeError` (the `None` input) mapped to `None`. -/
def parse_arxiv_date (date_str : Option Str) : Option PyDate :=
  match date_str with
  | none => none
  | some s => strptimeYMD ((splitOnChar 'T' s).headD [])

-- sanity instances of the date parser
example : parse_arxiv_date (some "2024-11-20T12:34:56Z".toList) =
    some ⟨2024, 11, 20⟩ := by decide
example : parse_arxiv_date (some "invalid".toList) = none := by decide
example : parse_arxiv_date none = none := rfl
example : parse_arxiv_date (some "2023-02-29T00:00:00Z".toList) = none := by decide
example : parse_arxiv_date (some "2024-02-29T00:00:00Z".toList) =
    some ⟨2024, 2, 29⟩ := by decide

/-- `find_matching_keywords` (src/arxiv_alert_cron_edited.py lines
81-103): for each keyword, quotes are stripped and the keyword is
lowercased before substring tests against the lowercased title and
abstract; a match is reported as the original keyword followed by a
parenthesised location list. -/
def find_matching_keywords (title abstract : Str) : List Str → List Str
  | [] => []
  | keyword :: rest =>
    let title_lower := lowerStr title
    let abstract_lower := lowerStr abstract
    let clean_keyword := lowerStr (stripChar '"' keyword)
    if subIn clean_keyword title_lower || subIn clean_keyword abstract_lower then
      let found_in : List Str :=
        (if subIn clean_keyword title_lower then ["title".toList] else []) ++
        (if subIn clean_keyword abstract_lower then ["abstract".toList] else [])
      (keyword ++ " (".toList ++ joinSep ", ".toList found_in ++ ")".toList) ::
        find_matching_keywords title abstract rest
    else
      find_matching_keywords title abstract rest

-- the keyword-matching example from the repository test suite
example :
    find_matching_keywords
      "JWST observations of galaxy evolution".toList
      "We study the formation of galaxies using ALMA data".toList
      ["JWST".toList, "ALMA".toList, "galaxy evolution".toList, "nonexistent".toList]
    = ["JWST (title)".toList, "ALMA (abstract)".toList,
       "galaxy evolution (title)".toList] := by decide

/-- A hyperlink of a feed entry (feedparser link dictionary); `ltype`
models `link.get('type')`. -/
structure Link where
  ltype : Option Str
  href : Str
deriving DecidableEq, Repr

/-- A feed entry as consumed by the program.  Optional fields model
attributes that may be missing from the parsed feed (`hasattr`
checks and the try/except around the author list). -/
structure Entry where
  id : Str
  title : Str
  summary : Str
  tags : List Str
  authors : Option (List Str)
  links : List Link
  arxiv_updated : Option Str
  updated : Option Str
  published : Option Str
  arxiv_created : Option Str
deriving DecidableEq, Repr

/-- One date field of `is_date_in_range`: `some verdict` when the
field is present, truthy (non-empty) and parseable, `none` when the
code falls through to the next field. -/
def fieldVerdict (f : Option Str) (start_date end_date : PyDate) : Option Bool :=
  match f with
  | none => none
  | some s =>
    if s.isEmpty then none
    else
      match parse_arxiv_date (some s) with
      | some d => some (dateLe start_date d && dateLe d end_date)
      | none => none

/-- `is_date_in_range` (src/arxiv_alert_cron_edited.py lines 131-180):
tries `arxiv_updated`, `updated`, `published`, `arxiv_created` in that
order, returns the in-range verdict of the first field that is
present, truthy and parseable, and `True` when none is.  The logging
on each branch has no effect on the result; the enclosing try/except
cannot fire in this model. -/
def is_date_in_range (entry : Entry) (start_date end_date : PyDate) : Bool :=
  match fieldVerdict entry.arxiv_updated start_date end_date with
  | some b => b
  | none =>
    match fieldVerdict entry.updated start_date end_date with
    | some b => b
    | none =>
      match fieldVerdict entry.published start_date end_date with
      | some b => b
      | none =>
        match fieldVerdict entry.arxiv_created start_date end_date with
        | some b => b
        | none => true

/-- Python truthiness of an optional list (`if categories:`): false for
`None` and for the empty list. -/
def truthyList (o : Option (List Str)) : Bool :=
  match o with
  | none => false
  | some l => !l.isEmpty

/-- `strftime("%Y%m%d")` on a date. -/
def fmtYYYYMMDD (d : PyDate) : Str :=
  padNat 4 d.year ++ padNat 2 d.month ++ padNat 2 d.day

/-- `strftime("%Y-%m-%d")` on a date. -/
def fmtISODate (d : PyDate) : Str :=
  padNat 4 d.year ++ "-".toList ++ padNat 2 d.month ++ "-".toList ++ padNat 2 d.day

/-- `build_arxiv_query` (src/arxiv_alert_cron_edited.py lines
182-219): clause groups for categories, keywords, authors and the
submitted-date range, joined with `+AND+`; `*` when no clause is
present.  The date branch requires both bounds (`if start_date and
end_date:`), and the list branches use Python truthiness. -/
def build_arxiv_query (categories keywords authors : Option (List Str))
    (start_date end_date : Option PyDate) : Str :=
  let query_parts : List Str :=
    (if truthyList categories then
      ["(".toList ++
        joinSep " OR ".toList
          ((categories.getD []).map (fun cat => "cat:".toList ++ cat)) ++
        ")".toList]
     else []) ++
    (if truthyList keywords then
      ["(".toList ++
        joinSep " OR ".toList
          ((keywords.getD []).map
            (fun kw => "(ti:".toList ++ kw ++ " OR abs:".toList ++ kw ++ ")".toList)) ++
        ")".toList]
     else []) ++
    (if truthyList authors then
      ["(".toList ++
        joinSep " OR ".toList
          ((authors.getD []).map (fun auth => "au:".toList ++ auth)) ++
        ")".toList]
     else []) ++
    (match start_date, end_date with
     | some s, some e =>
       ["submittedDate:[".toList ++ fmtYYYYMMDD s ++ "0000".toList ++
        "+TO+".toList ++ fmtYYYYMMDD e ++ "2359]".toList]
     | _, _ => [])
  if query_parts.isEmpty then "*".toList
  else joinSep "+AND+".toList query_parts

example :
    build_arxiv_query (some ["astro-ph.ga".toList, "astro-ph.co".toList])
      none none none none
    = "(cat:astro-ph.ga OR cat:astro-ph.co)".toList := by decide
example : build_arxiv_query none none none none none = "*".toList := by decide
example :
    build_arxiv_query (some ["astro-ph.ga".toList]) none none
      (some ⟨2024, 11, 18⟩) (some ⟨2024, 11, 19⟩)
    = "(cat:astro-ph.ga)+AND+submittedDate:[202411180000+TO+202411192359]".toList := by
  decide

set_option linter.unusedVariables false in
/-- `clean_old_processed_papers` (src/arxiv_alert_cron_edited.py lines
56-61): if the set holds more than 1000 identifiers, keep the last 500
of its materialised listing.  The Python set is modelled as a
duplicate-free list whose order stands for the arbitrary iteration
order of `list(processed_papers)`; `days_to_keep` is accepted and
ignored exactly as in the source. -/
def clean_old_processed_papers (processed_papers : List Str)
    (days_to_keep : Nat := 30) : List Str :=
  if processed_papers.length > 1000 then
    processed_papers.drop (processed_papers.length - 500)
  else processed_papers

/-- Search configuration of one `arxiv_alert` invocation (the
`categories`, `keywords`, `authors`, `excluded_categories`
parameters; `None` maps to `none`). -/
structure Config where
  categories : Option (List Str)
  keywords : Option (List Str)
  authors : Option (List Str)
  excluded_categories : Option (List Str)
deriving DecidableEq, Repr

/-- `entry.id.split('/abs/')[-1]` (src/arxiv_alert_cron_edited.py line
472): the arXiv identifier extracted from the entry id URL. -/
def entryArxivId (e : Entry) : Str := (splitOnStr "/abs/".toList e.id).getLastD []

/-- `arxiv_id.split('v')[0] if 'v' in arxiv_id else arxiv_id`
(src/arxiv_alert_cron_edited.py line 473): the base identifier used
for dedup.  Note that Python `split` cuts at the first `'v'`. -/
def baseArxivId (arxiv_id : Str) : Str :=
  if arxiv_id.contains 'v' then (splitOnChar 'v' arxiv_id).headD []
  else arxiv_id

/-- `new_processed_papers.add(base_arxiv_id)` on the list model of a
Python set: append when absent, no-op when present. -/
def addToSet (l : List Str) (x : Str) : List Str :=
  if l.contains x then l else l ++ [x]

/-- `processed_papers.update(new_processed_papers)` on the list model
of a Python set: elements of the second operand that are not yet
present are appended. -/
def setUnion (a b : List Str) : List Str :=
  a ++ b.filter (fun x => !a.contains x)

/-- `pdf_link` selection (src/arxiv_alert_cron_edited.py lines
547-551): the href of the first link whose `type` is
`application/pdf`, defaulting to the entry id. -/
def pdfLink (e : Entry) : Str :=
  match e.links.find? (fun l => l.ltype == some "application/pdf".toList) with
  | some l => l.href
  | none => e.id

/-- The seen-before badge string (src/arxiv_alert_cron_edited.py line
560). -/
def seenBeforeBadge : Str :=
  " <span style=\"color: #999; font-size: 0.8em;\">(seen before)</span>".toList

/-- The NEW badge string (src/arxiv_alert_cron_edited.py line 562). -/
def newBadge : Str :=
  " <span style=\"color: #45ABC2; font-size: 0.8em; font-weight: bold;\">[NEW]</span>".toList

/-- The HTML block appended to `body` for one shown paper
(src/arxiv_alert_cron_edited.py lines 546-594).  `gc` is the
`get_paper_comments` network call, modelled as an oracle from the
arXiv id to the comments string; `matching` is the matching-keywords
list computed by the caller. -/
def renderEntry (cfg : Config) (gc : Str → Str) (e : Entry)
    (is_already_processed : Bool) (matching : List Str) : Str :=
  let arxiv_id := entryArxivId e
  let new_badge := if is_already_processed then seenBeforeBadge else newBadge
  "<a href=\"".toList ++ pdfLink e ++ "\" target=\"_blank\"><h2>".toList ++
    e.title ++ new_badge ++ "</h2></a>".toList ++
  (match e.authors with
   | some names =>
     "<strong><u>Authors:</u></strong> ".toList ++ joinSep ", ".toList names ++
       "<br>".toList
   | none => []) ++
  "<strong><u>Categories:</u></strong> ".toList ++ joinSep ", ".toList e.tags ++
    "<br>".toList ++
  "<strong><u>Comments:</u></strong> ".toList ++ gc arxiv_id ++ "<br>".toList ++
  (match parse_arxiv_date e.published with
   | some pub_date =>
     "<strong><u>Published:</u></strong> ".toList ++ fmtISODate pub_date ++
       "<br>".toList
   | none => []) ++
  (match cfg.keywords with
   | none =>
     "<strong><u>Matching Keywords:</u></strong> Not evaluated (no keywords configured)<br>".toList
   | some _ =>
     if !matching.isEmpty then
       "<strong><u>Matching Keywords:</u></strong> ".toList ++
         joinSep ", ".toList matching ++ "<br>".toList
     else "<strong><u>Matching Keywords:</u></strong> None<br>".toList) ++
  "<p><strong><u>Abstract:</u></strong> ".toList ++ e.summary ++ "</p>".toList ++
  "<br><hr><br>".toList

/-- Mutable counters and accumulators of the entry-processing loop of
`arxiv_alert` (src/arxiv_alert_cron_edited.py lines 463-469 and the
loop body). -/
structure LoopState where
  newProcessed : List Str
  newPapersCount : Nat
  filteredPapersCount : Nat
  noKeywordsCount : Nat
  dateFilteredCount : Nat
  alreadyProcessedCount : Nat
  shownCount : Nat
  body : Str
deriving DecidableEq, Repr

/-- The loop state at loop entry (all counters zero; `body` holds the
document header, which the loop never reads). -/
def initLoopState : LoopState := ⟨[], 0, 0, 0, 0, 0, 0, []⟩

/-- `matching_keywords` of the loop body
(src/arxiv_alert_cron_edited.py lines 530-532): the keyword matches of
an entry, empty when no keyword list was configured. -/
def matchingKeywordsOf (cfg : Config) (e : Entry) : List Str :=
  match cfg.keywords with
  | some keywords => find_matching_keywords e.title e.summary keywords
  | none => []

/-- The required-category rejection condition
(src/arxiv_alert_cron_edited.py lines 510-517): categories were given
and no entry tag matches any of them case-insensitively. -/
def rejectByRequiredCategories (cfg : Config) (e : Entry) : Bool :=
  truthyList cfg.categories &&
    !((e.tags.map lowerStr).any (fun cat_lower =>
      ((cfg.categories.getD []).map lowerStr).contains cat_lower))

/-- The excluded-category rejection condition
(src/arxiv_alert_cron_edited.py lines 519-527): exclusions were given
and some entry tag matches one of them case-insensitively. -/
def rejectByExcludedCategories (cfg : Config) (e : Entry) : Bool :=
  truthyList cfg.excluded_categories &&
    ((e.tags.map lowerStr).any (fun cat_lower =>
      ((cfg.excluded_categories.getD []).map lowerStr).contains cat_lower))

/-- The keyword rejection condition (src/arxiv_alert_cron_edited.py
lines 529-536): a keyword list was configured (`is not None`) and no
keyword matched. -/
def rejectByKeywords (cfg : Config) (e : Entry) : Bool :=
  cfg.keywords.isSome && (matchingKeywordsOf cfg e).isEmpty

/-- An entry survives the filter chain. -/
def passesFilters (cfg : Config) (e : Entry) : Bool :=
  !rejectByRequiredCategories cfg e && !rejectByExcludedCategories cfg e &&
    !rejectByKeywords cfg e

/-- One iteration of the entry-processing loop of `arxiv_alert`
(src/arxiv_alert_cron_edited.py lines 471-594).  `processed` is the
loaded processed-papers set, `gc` the comments oracle,
`start_window`/`yesterday` the local date-filter window.  The date
check is computed and then used only for logging, exactly as in the
source; the per-branch logging is dropped. -/
def processEntry (cfg : Config) (gc : Str → Str) (processed : List Str)
    (start_window yesterday : PyDate) (st : LoopState) (e : Entry) : LoopState :=
  let arxiv_id := entryArxivId e
  let base_arxiv_id := baseArxivId arxiv_id
  let is_already_processed := processed.contains base_arxiv_id
  let st := if is_already_processed then
      { st with alreadyProcessedCount := st.alreadyProcessedCount + 1 }
    else st
  let _date_check := is_date_in_range e start_window yesterday
  if rejectByRequiredCategories cfg e then
    { st with filteredPapersCount := st.filteredPapersCount + 1 }
  else if rejectByExcludedCategories cfg e then
    { st with filteredPapersCount := st.filteredPapersCount + 1 }
  else if rejectByKeywords cfg e then
    { st with noKeywordsCount := st.noKeywordsCount + 1 }
  else
    let st := if !is_already_processed then
        { st with newProcessed := addToSet st.newProcessed base_arxiv_id,
                  newPapersCount := st.newPapersCount + 1 }
      else st
    { st with shownCount := st.shownCount + 1,
              body := st.body ++
                renderEntry cfg gc e is_already_processed (matchingKeywordsOf cfg e) }

/-- The whole entry-processing loop: a left fold of `processEntry`
over the fetched entries. -/
def processEntries (cfg : Config) (gc : Str → Str) (processed : List Str)
    (start_window yesterday : PyDate) (st : LoopState)
    (entries : List Entry) : LoopState :=
  entries.foldl (processEntry cfg gc processed start_window yesterday) st

/-- The dedup store persisted at the end of a run
(src/arxiv_alert_cron_edited.py lines 610-613):
`processed_papers.update(new_processed_papers)` followed by
`clean_old_processed_papers` and `save_processed_papers`. -/
def savedStore (processed newProcessed : List Str) : List Str :=
  clean_old_processed_papers (setUnion processed newProcessed)

/-- The base identifier of an entry, as the loop computes it. -/
def entryBaseId (e : Entry) : Str := baseArxivId (entryArxivId e)

/-- The per-call page size `max_results_per_call`
(src/arxiv_alert_cron_edited.py line 286). -/
def maxResultsPerCall : Nat := 200

/-- `max_total_results = min(2000, 200 * amount_of_days)`
(src/arxiv_alert_cron_edited.py line 289). -/
def maxTotalResults (amount_of_days : Nat) : Nat := min 2000 (200 * amount_of_days)

/-- State of the pagination loop for one keyword batch
(src/arxiv_alert_cron_edited.py lines 312-378).  `requests` counts the
`fetch_arxiv_batch` calls issued; `done` records that the `while`
loop has been left (by `break` or by its condition turning false). -/
structure FetchState where
  start : Nat
  allIds : List Str
  allEntries : List Entry
  totalFetched : Nat
  requests : Nat
  done : Bool
deriving Repr

/-- The pagination state before the first iteration of a batch
(`start = 0`, nothing fetched, loop not yet left). -/
def fetchInit : FetchState := ⟨0, [], [], 0, 0, false⟩

/-- The inner `for entry in feed.entries` collection loop
(src/arxiv_alert_cron_edited.py lines 340-356): an entry is appended
to `all_entries` only when its arXiv id is not yet in
`all_entry_ids`. -/
def collectPage (p : List Str × List Entry) (page : List Entry) :
    List Str × List Entry :=
  page.foldl
    (fun (p : List Str × List Entry) entry =>
      let entry_id := entryArxivId entry
      if p.1.contains entry_id then p
      else (p.1 ++ [entry_id], p.2 ++ [entry]))
    p

/-- One iteration of the pagination `while` loop
(src/arxiv_alert_cron_edited.py lines 316-378).  `fetchAt` models
`fetch_arxiv_batch` at a given `start` offset: `none` stands for a
request error or a response without an `entries` attribute, `some
page` for a parsed feed with `page` as its entry list.  A finished
state is left unchanged. -/
def fetchStep (fetchAt : Nat → Option (List Entry)) (max_total_results : Nat)
    (st : FetchState) : FetchState :=
  if st.done then st
  else if st.start < max_total_results then
    match fetchAt st.start with
    | some page =>
      if page.isEmpty then
        { st with requests := st.requests + 1, done := true }
      else
        let p := collectPage (st.allIds, st.allEntries) page
        let st := { st with allIds := p.1, allEntries := p.2,
                            totalFetched := st.totalFetched + page.length,
                            requests := st.requests + 1 }
        if page.length < maxResultsPerCall then { st with done := true }
        else { st with start := st.start + maxResultsPerCall }
    | none => { st with requests := st.requests + 1, done := true }
  else { st with done := true }

/-- `fuel` iterations of the pagination loop. -/
def fetchRun (fetchAt : Nat → Option (List Entry)) (max_total_results : Nat) :
    Nat → FetchState → FetchState
  | 0, st => st
  | fuel + 1, st => fetchRun fetchAt max_total_results fuel
      (fetchStep fetchAt max_total_results st)

/-- A page at request index `j` that lets the loop continue: the fetch
succeeded, the page is non-empty and holds at least the full page
size. -/
def fullPage (fetchAt : Nat → Option (List Entry)) (j : Nat) : Prop :=
  ∃ page, fetchAt (maxResultsPerCall * j) = some page ∧
    maxResultsPerCall ≤ page.length

/-! ### Lemmas about the string model -/

lemma startsWith_append_self (n t : Str) : startsWith n (n ++ t) = true := by
  induction n with
  | nil => cases t <;> rfl
  | cons a as ih => simp [startsWith, ih]

lemma subIn_self_append (n y : Str) : subIn n (n ++ y) = true := by
  cases n with
  | nil =>
    cases y with
    | nil => rfl
    | cons c rest => simp [subIn, startsWith]
  | cons a as =>
    have h := startsWith_append_self (a :: as) y
    simp only [List.cons_append] at h
    simp [subIn, h]

lemma subIn_append_left (n h t : Str) (hs : subIn n t = true) :
    subIn n (h ++ t) = true := by
  induction h with
  | nil => simpa using hs
  | cons c rest ih => simp [subIn, ih]

lemma subIn_mid (n x y : Str) : subIn n (x ++ n ++ y) = true := by
  rw [List.append_assoc]
  exact subIn_append_left n x (n ++ y) (subIn_self_append n y)

lemma startsWith_chars (n s : Str) (hs : startsWith n s = true) :
    ∀ c ∈ n, c ∈ s := by
  induction n generalizing s with
  | nil => simp
  | cons a as ih =>
    cases s with
    | nil => simp [startsWith] at hs
    | cons b bs =>
      simp only [startsWith, Bool.and_eq_true, beq_iff_eq] at hs
      intro c hc
      rcases List.mem_cons.mp hc with rfl | hc
      · simp [hs.1]
      · exact List.mem_cons_of_mem _ (ih bs hs.2 c hc)

lemma subIn_chars (n h : Str) (hs : subIn n h = true) : ∀ c ∈ n, c ∈ h := by
  induction h with
  | nil =>
    cases n with
    | nil => simp
    | cons a as => simp [subIn] at hs
  | cons b bs ih =>
    simp only [subIn, Bool.or_eq_true] at hs
    rcases hs with hs | hs
    · exact startsWith_chars n (b :: bs) hs
    · exact fun c hc => List.mem_cons_of_mem _ (ih hs c hc)

lemma splitOnChar_ne_nil (c : Char) (s : Str) : splitOnChar c s ≠ [] := by
  induction s with
  | nil => simp [splitOnChar]
  | cons x rest ih =>
    simp only [splitOnChar]
    split
    · simp
    · split
      · simp
      · simp

lemma splitOnChar_headD (c : Char) (s : Str) :
    (splitOnChar c s).headD [] = s.takeWhile (fun x => x != c) := by
  induction s with
  | nil => rfl
  | cons x rest ih =>
    simp only [splitOnChar, List.takeWhile]
    rcases hx : x == c with _ | _
    · simp only [Bool.false_eq_true, if_false, bne, hx, Bool.not_false, cond_true]
      rcases hsp : splitOnChar c rest with _ | ⟨h, t⟩
      · exact absurd hsp (splitOnChar_ne_nil c rest)
      · rw [hsp] at ih
        simpa using congrArg (x :: ·) ih
    · simp [hx, bne]

lemma splitOnChar_append_cons (c : Char) (a b : Str) (ha : c ∉ a) :
    splitOnChar c (a ++ c :: b) = a :: splitOnChar c b := by
  induction a with
  | nil => simp [splitOnChar]
  | cons x rest ih =>
    have hx : (x == c) = false := by
      simp only [beq_eq_false_iff_ne, ne_eq]
      intro h
      exact ha (h ▸ List.mem_cons_self x rest)
    have ha' : c ∉ rest := fun h => ha (List.mem_cons_of_mem x h)
    have ih' := ih ha'
    simp only [List.cons_append, splitOnChar, hx, Bool.false_eq_true, if_false,
      List.append_eq]
    rw [ih']

lemma splitOnChar_of_not_mem (c : Char) (a : Str) (ha : c ∉ a) :
    splitOnChar c a = [a] := by
  induction a with
  | nil => rfl
  | cons x rest ih =>
    have hx : (x == c) = false := by
      simp only [beq_eq_false_iff_ne, ne_eq]
      intro h
      exact ha (h ▸ List.mem_cons_self x rest)
    have ha' : c ∉ rest := fun h => ha (List.mem_cons_of_mem x h)
    simp only [splitOnChar, hx, Bool.false_eq_true, if_false, ih ha']

lemma takeWhile_ne_append_cons (c : Char) (a b : Str) :
    (a ++ c :: b).takeWhile (fun x => x != c) =
      a.takeWhile (fun x => x != c) := by
  induction a with
  | nil => simp [List.takeWhile]
  | cons x rest ih =>
    simp only [List.cons_append, List.takeWhile]
    rcases hx : x != c with _ | _
    · simp
    · simp [ih]

lemma splitOnStrGo_of_not_subIn (sep : Str) (s : Str) :
    ∀ (fuel : Nat) (acc : Str), subIn sep s = false →
      splitOnStrGo sep fuel s acc = [acc ++ s] := by
  induction s with
  | nil => intro fuel acc _; cases fuel <;> simp [splitOnStrGo]
  | cons x rest ih =>
    intro fuel acc hs
    cases fuel with
    | zero => simp [splitOnStrGo]
    | succ fuel =>
      simp only [subIn, Bool.or_eq_false_iff] at hs
      simp only [splitOnStrGo, hs.1, Bool.false_eq_true, if_false]
      rw [ih fuel (acc ++ [x]) hs.2]
      simp

lemma splitOnStr_of_not_subIn (sep s : Str) (hs : subIn sep s = false) :
    splitOnStr sep s = [s] := by
  unfold splitOnStr
  rw [splitOnStrGo_of_not_subIn sep s s.length [] hs]
  simp

/-! ### Lemmas about decimal rendering -/

lemma digitVal_digitChar : ∀ k, k < 10 → digitVal (digitChar k) = k := by decide

lemma digitChar_isDigit : ∀ k, k < 10 → (digitChar k).isDigit = true := by decide

lemma natToDigitsFuel_all_digit (fuel n : Nat) :
    (natToDigitsFuel fuel n).all Char.isDigit = true := by
  induction fuel generalizing n with
  | zero => rfl
  | succ fuel ih =>
    simp only [natToDigitsFuel]
    split
    · next h => simp [digitChar_isDigit n h]
    · next h =>
      simp [List.all_append, ih, digitChar_isDigit (n % 10) (Nat.mod_lt n (by omega))]

lemma natToDigits_all_digit (n : Nat) :
    (natToDigits n).all Char.isDigit = true := natToDigitsFuel_all_digit (n + 1) n

lemma natToDigitsFuel_eq_natToDigits (n : Nat) :
    ∀ fuel, n < fuel → natToDigitsFuel fuel n = natToDigits n := by
  induction n using Nat.strong_induction_on with
  | _ n ih =>
    intro fuel hf
    cases fuel with
    | zero => omega
    | succ fuel =>
      by_cases h10 : n < 10
      · simp [natToDigitsFuel, natToDigits, h10]
      · have hdiv : n / 10 < n := Nat.div_lt_self (by omega) (by omega)
        simp only [natToDigitsFuel, natToDigits, h10, if_false]
        rw [ih (n / 10) hdiv fuel (by omega), ih (n / 10) hdiv n (by omega)]

lemma digitsToNat_append_last (a : Str) (c : Char) :
    digitsToNat (a ++ [c]) = digitsToNat a * 10 + digitVal c := by
  simp [digitsToNat, List.foldl_append]

lemma digitsToNat_natToDigits (n : Nat) :
    digitsToNat (natToDigits n) = n := by
  induction n using Nat.strong_induction_on with
  | _ n ih =>
    by_cases h10 : n < 10
    · simp [natToDigits, natToDigitsFuel, h10, digitsToNat,
        digitVal_digitChar n h10]
    · have hdiv : n / 10 < n := Nat.div_lt_self (by omega) (by omega)
      have step : natToDigits n = natToDigits (n / 10) ++ [digitChar (n % 10)] := by
        rw [natToDigits]
        simp only [natToDigitsFuel, h10, if_false]
        rw [natToDigitsFuel_eq_natToDigits (n / 10) n (by omega)]
      rw [step, digitsToNat_append_last, ih (n / 10) hdiv,
        digitVal_digitChar (n % 10) (Nat.mod_lt n (by omega))]
      omega

lemma natToDigits_length_le (j : Nat) :
    ∀ n, 1 ≤ j → n < 10 ^ j → (natToDigits n).length ≤ j := by
  induction j with
  | zero => omega
  | succ j ih =>
    intro n _ hn
    by_cases h10 : n < 10
    · simp only [natToDigits, natToDigitsFuel, h10, if_true]
      simp
    · have hj : 1 ≤ j := by
        by_contra h
        have : j = 0 := by omega
        subst this
        simp at hn
        omega
      have step : natToDigits n = natToDigits (n / 10) ++ [digitChar (n % 10)] := by
        rw [natToDigits]
        simp only [natToDigitsFuel, h10, if_false]
        rw [natToDigitsFuel_eq_natToDigits (n / 10) n
          (by have := Nat.div_lt_self (show 0 < n by omega) (show 1 < 10 by omega); omega)]
      have hdivlt : n / 10 < 10 ^ j := by
        rw [Nat.div_lt_iff_lt_mul (by omega)]
        calc n < 10 ^ (j + 1) := hn
        _ = 10 ^ j * 10 := by ring
      have := ih (n / 10) hj hdivlt
      rw [step]
      simp only [List.length_append, List.length_cons, List.length_nil]
      omega

lemma digitsToNat_replicate_zero (k : Nat) (s : Str) :
    digitsToNat (List.replicate k '0' ++ s) = digitsToNat s := by
  induction k with
  | zero => simp
  | succ k ih =>
    simp only [List.replicate_succ, List.cons_append, digitsToNat, List.foldl_cons]
    have : (0 : Nat) * 10 + digitVal '0' = 0 := by decide
    rw [this]
    exact ih

lemma digitsToNat_padNat (k n : Nat) : digitsToNat (padNat k n) = n := by
  rw [padNat, digitsToNat_replicate_zero, digitsToNat_natToDigits]

lemma padNat_length (k n : Nat) (hk : 1 ≤ k) (hn : n < 10 ^ k) :
    (padNat k n).length = k := by
  have hle := natToDigits_length_le k n hk hn
  simp only [padNat, List.length_append, List.length_replicate]
  omega

lemma padNat_all_digit (k n : Nat) : (padNat k n).all Char.isDigit = true := by
  simp only [padNat, List.all_append, Bool.and_eq_true]
  constructor
  · rw [List.all_eq_true]
    intro c hc
    rw [List.eq_of_mem_replicate hc]
    rfl
  · exact natToDigits_all_digit n

lemma ne_of_isDigit (c x : Char) (hc : c.isDigit = true) (hx : x.isDigit = false) :
    c ≠ x := by
  rintro rfl
  rw [hc] at hx
  exact Bool.true_eq_false.mp hx

lemma padNat_not_mem (k n : Nat) (x : Char) (hx : x.isDigit = false) :
    x ∉ padNat k n := by
  intro hmem
  have hall := padNat_all_digit k n
  rw [List.all_eq_true] at hall
  exact ne_of_isDigit x x (hall x hmem) hx rfl

/-! ### Round trip between date formatting and the embedded strptime -/

lemma fmtISODate_eq (p : PyDate) :
    fmtISODate p =
      padNat 4 p.year ++ '-' :: (padNat 2 p.month ++ '-' :: padNat 2 p.day) := by
  simp [fmtISODate]

lemma daysInMonth_le_31 (y m : Nat) : daysInMonth y m ≤ 31 := by
  rw [daysInMonth]
  split
  · split <;> omega
  · split <;> omega

lemma strptimeYMD_pad (y m d : Nat) (hy1 : 1 ≤ y) (hy2 : y ≤ 9999)
    (hm1 : 1 ≤ m) (hm2 : m ≤ 12) (hd1 : 1 ≤ d) (hd2 : d ≤ daysInMonth y m) :
    strptimeYMD (padNat 4 y ++ '-' :: (padNat 2 m ++ '-' :: padNat 2 d)) =
      some ⟨y, m, d⟩ := by
  have hy : '-' ∉ padNat 4 y := padNat_not_mem 4 y '-' (by decide)
  have hmm : '-' ∉ padNat 2 m := padNat_not_mem 2 m '-' (by decide)
  have hdd : '-' ∉ padNat 2 d := padNat_not_mem 2 d '-' (by decide)
  have hd31 : d ≤ 31 := le_trans hd2 (daysInMonth_le_31 y m)
  have hsplit :
      splitOnChar '-' (padNat 4 y ++ '-' :: (padNat 2 m ++ '-' :: padNat 2 d)) =
        [padNat 4 y, padNat 2 m, padNat 2 d] := by
    rw [splitOnChar_append_cons '-' _ _ hy, splitOnChar_append_cons '-' _ _ hmm,
      splitOnChar_of_not_mem '-' _ hdd]
  rw [strptimeYMD]
  rw [hsplit]
  simp only [padNat_length 4 y (by omega) (by omega),
    padNat_length 2 m (by omega) (by omega),
    padNat_length 2 d (by omega) (by omega),
    padNat_all_digit, digitsToNat_padNat]
  simp [hy1, hm1, hm2, hd1, hd2]

lemma strptimeYMD_valid (t : Str) (p : PyDate) (h : strptimeYMD t = some p) :
    1 ≤ p.year ∧ 1 ≤ p.month ∧ p.month ≤ 12 ∧ 1 ≤ p.day ∧
      p.day ≤ daysInMonth p.year p.month := by
  rw [strptimeYMD] at h
  split at h
  · next ys ms ds _ =>
    split at h
    · dsimp only at h
      split at h
      · next hg =>
        injection h with h
        subst h
        simp only [Bool.and_eq_true, decide_eq_true_eq] at hg
        obtain ⟨⟨⟨⟨h1, h2⟩, h3⟩, h4⟩, h5⟩ := hg
        exact ⟨h1, h2, h3, h4, h5⟩
      · exact absurd h (by simp)
    · exact absurd h (by simp)
  · exact absurd h (by simp)

/-- C6: `parse_arxiv_date` maps the absent (`None`) input to absence
without raising; maps every well-formed ISO-like timestamp string
(zero-padded date part, a `T` separator, arbitrary trailing time text
with zone marker) to the calendar date named by its date part; and
produces a date only when that date is a valid calendar date, so every
malformed string (such as `invalid`) maps to absence. -/
theorem c6_parse_arxiv_date_spec :
    parse_arxiv_date none = none ∧
    (∀ (y m d : Nat) (rest : Str), 1 ≤ y → y ≤ 9999 → 1 ≤ m → m ≤ 12 →
      1 ≤ d → d ≤ daysInMonth y m →
      parse_arxiv_date (some (fmtISODate ⟨y, m, d⟩ ++ 'T' :: rest)) =
        some ⟨y, m, d⟩) ∧
    (∀ (s : Str) (p : PyDate), parse_arxiv_date (some s) = some p →
      1 ≤ p.year ∧ 1 ≤ p.month ∧ p.month ≤ 12 ∧ 1 ≤ p.day ∧
        p.day ≤ daysInMonth p.year p.month) ∧
    parse_arxiv_date (some "invalid".toList) = none := by
  refine ⟨rfl, ?_, ?_, by decide⟩
  · intro y m d rest hy1 hy2 hm1 hm2 hd1 hd2
    rw [fmtISODate_eq]
    have hT : 'T' ∉ padNat 4 y ++ '-' :: (padNat 2 m ++ '-' :: padNat 2 d) := by
      intro hmem
      simp only [List.mem_append, List.mem_cons] at hmem
      rcases hmem with h | h | h | h | h
      · exact padNat_not_mem 4 y 'T' (by decide) h
      · exact absurd h (by decide)
      · exact padNat_not_mem 2 m 'T' (by decide) h
      · exact absurd h (by decide)
      · exact padNat_not_mem 2 d 'T' (by decide) h
    rw [parse_arxiv_date, splitOnChar_append_cons 'T' _ rest hT]
    simp only [List.headD_cons]
    exact strptimeYMD_pad y m d hy1 hy2 hm1 hm2 hd1 hd2
  · intro s p h
    rw [parse_arxiv_date] at h
    exact strptimeYMD_valid _ p h

/-- Witness for C6: the well-formed branch evaluated at
`2024-11-20T12:34:56Z`. -/
theorem c6_parse_arxiv_date_spec_witness :
    (1 ≤ 2024 ∧ 2024 ≤ 9999 ∧ 1 ≤ 11 ∧ 11 ≤ 12 ∧ 1 ≤ 20 ∧
      20 ≤ daysInMonth 2024 11) ∧
    parse_arxiv_date (some (fmtISODate ⟨2024, 11, 20⟩ ++ 'T' :: "12:34:56Z".toList)) =
      some ⟨2024, 11, 20⟩ :=
  ⟨by decide,
    c6_parse_arxiv_date_spec.2.1 2024 11 20 "12:34:56Z".toList
      (by decide) (by decide) (by decide) (by decide) (by decide) (by decide)⟩

/-! ### C4: query built from categories only -/

/-- C4: for a non-empty category list with keywords, authors and date
bounds absent, the built query is exactly one `cat:` clause per
category, joined by OR and wrapped in parentheses; in particular no
`ti:`, `abs:`, `au:` or `submittedDate` clause is present. -/
theorem c4_build_query_categories_only (cats : List Str) (h : cats ≠ []) :
    build_arxiv_query (some cats) none none none none =
      "(".toList ++
        joinSep " OR ".toList (cats.map (fun cat => "cat:".toList ++ cat)) ++
        ")".toList := by
  cases cats with
  | nil => exact absurd rfl h
  | cons c cs => rfl

/-- Witness for C4 at a concrete two-category criteria. -/
theorem c4_build_query_categories_only_witness :
    ["astro-ph.co".toList, "astro-ph.ga".toList] ≠ ([] : List Str) ∧
    build_arxiv_query (some ["astro-ph.co".toList, "astro-ph.ga".toList])
        none none none none =
      "(".toList ++
        joinSep " OR ".toList
          (["astro-ph.co".toList, "astro-ph.ga".toList].map
            (fun cat => "cat:".toList ++ cat)) ++
        ")".toList :=
  ⟨by decide,
    c4_build_query_categories_only ["astro-ph.co".toList, "astro-ph.ga".toList]
      (by decide)⟩

/-! ### C10: keyword matching reports original spellings -/

/-- C10: `find_matching_keywords` strips surrounding double quotes and
lowercases each keyword before the substring tests against the
lowercased title and abstract, but annotates matches with the original
keyword spelling and the found locations; concretely, the quoted
keyword `"ALMA"` matches an abstract containing `alma` and is reported
with its quotes intact. -/
theorem c10_find_matching_keywords_spec :
    (∀ (title abstract : Str) (keywords : List Str),
      find_matching_keywords title abstract keywords =
        (keywords.filter (fun keyword =>
          subIn (lowerStr (stripChar '"' keyword)) (lowerStr title) ||
          subIn (lowerStr (stripChar '"' keyword)) (lowerStr abstract))).map
          (fun keyword =>
            keyword ++ " (".toList ++
              joinSep ", ".toList
                ((if subIn (lowerStr (stripChar '"' keyword)) (lowerStr title)
                  then ["title".toList] else []) ++
                 (if subIn (lowerStr (stripChar '"' keyword)) (lowerStr abstract)
                  then ["abstract".toList] else [])) ++
              ")".toList)) ∧
    find_matching_keywords "A dust survey".toList
      "New alma maps of dusty galaxies".toList ["\"ALMA\"".toList] =
      ["\"ALMA\" (abstract)".toList] := by
  constructor
  · intro title abstract keywords
    induction keywords with
    | nil => rfl
    | cons kw rest ih =>
      by_cases hc :
          (subIn (lowerStr (stripChar '"' kw)) (lowerStr title) ||
            subIn (lowerStr (stripChar '"' kw)) (lowerStr abstract)) = true
      · simp only [find_matching_keywords, hc, if_true, List.filter_cons,
          List.map_cons, ih]
      · rw [Bool.not_eq_true] at hc
        simp only [find_matching_keywords, hc, Bool.false_eq_true, if_false,
          List.filter_cons, ih]
  · decide

/-! ### C5: date-range verdict priority and advisory-only use -/

/-- The date a single candidate field contributes: present, truthy
(non-empty) and parseable. -/
def presentParsed (f : Option Str) : Option PyDate :=
  match f with
  | none => none
  | some s => if s.isEmpty then none else parse_arxiv_date (some s)

/-- First contributing field of a priority list. -/
def firstParsed : List (Option Str) → Option PyDate
  | [] => none
  | f :: rest =>
    match presentParsed f with
    | some d => some d
    | none => firstParsed rest

/-- The highest-priority date of an entry in the order `arxiv_updated`,
`updated`, `published`, `arxiv_created` — the priority order stated by
the spec, written independently of `is_date_in_range`. -/
def firstParsedDate (e : Entry) : Option PyDate :=
  firstParsed [e.arxiv_updated, e.updated, e.published, e.arxiv_created]

lemma fieldVerdict_eq (f : Option Str) (s t : PyDate) :
    fieldVerdict f s t =
      (presentParsed f).map (fun d => dateLe s d && dateLe d t) := by
  rcases f with _ | str
  · rfl
  · rcases he : str.isEmpty with _ | _
    · simp only [fieldVerdict, presentParsed, he, Bool.false_eq_true, if_false]
      rcases parse_arxiv_date (some str) with _ | d <;> simp
    · simp [fieldVerdict, presentParsed, he]

/-- C5: `is_date_in_range` returns the in-range verdict of the
highest-priority present-and-parseable date field, in the order
`arxiv_updated` then `updated` then `published` then `arxiv_created`,
and returns `true` when no field parses; and in the processing loop
the verdict never affects the outcome — `processEntry` yields the same
state whatever date window is supplied, so the local date check is
advisory only and never excludes an entry from the rendered output. -/
theorem c5_date_check_priority_and_advisory :
    (∀ (e : Entry) (s t : PyDate),
      is_date_in_range e s t =
        match firstParsedDate e with
        | some d => dateLe s d && dateLe d t
        | none => true) ∧
    (∀ (cfg : Config) (gc : Str → Str) (processed : List Str)
      (s1 t1 s2 t2 : PyDate) (st : LoopState) (e : Entry),
      processEntry cfg gc processed s1 t1 st e =
        processEntry cfg gc processed s2 t2 st e) := by
  constructor
  · intro e s t
    rw [is_date_in_range, firstParsedDate, firstParsed, firstParsed, firstParsed,
      firstParsed, fieldVerdict_eq, fieldVerdict_eq, fieldVerdict_eq,
      fieldVerdict_eq]
    rcases presentParsed e.arxiv_updated with _ | d1
    · rcases presentParsed e.updated with _ | d2
      · rcases presentParsed e.published with _ | d3
        · rcases presentParsed e.arxiv_created with _ | d4 <;> simp [firstParsed]
        · simp
      · simp
    · simp
  · intro cfg gc processed s1 t1 s2 t2 st e
    rfl

/-! ### Membership helpers for the list model of Python sets -/

lemma contains_iff_mem {α : Type} [BEq α] [LawfulBEq α] (l : List α) (a : α) :
    l.contains a = true ↔ a ∈ l := by
  show l.elem a = true ↔ a ∈ l
  exact List.elem_iff

lemma contains_eq_false_iff {α : Type} [BEq α] [LawfulBEq α] (l : List α) (a : α) :
    l.contains a = false ↔ a ∉ l := by
  rw [← Bool.not_eq_true]
  exact not_congr (contains_iff_mem l a)

lemma mem_addToSet_self (l : List Str) (x : Str) : x ∈ addToSet l x := by
  rw [addToSet]
  split
  · next h => exact (contains_iff_mem l x).mp h
  · simp

lemma mem_addToSet_of_mem (l : List Str) (x y : Str) (h : y ∈ l) :
    y ∈ addToSet l x := by
  rw [addToSet]
  split
  · exact h
  · simp [h]

lemma addToSet_of_mem (l : List Str) (x : Str) (h : x ∈ l) :
    addToSet l x = l := by
  rw [addToSet, if_pos ((contains_iff_mem l x).mpr h)]

lemma mem_setUnion_left (a b : List Str) (x : Str) (h : x ∈ a) :
    x ∈ setUnion a b := List.mem_append_left _ h

lemma mem_setUnion_right (a b : List Str) (x : Str) (h : x ∈ b) :
    x ∈ setUnion a b := by
  by_cases ha : x ∈ a
  · exact List.mem_append_left _ ha
  · refine List.mem_append_right _ ?_
    rw [List.mem_filter]
    exact ⟨h, by simp [contains_eq_false_iff, ha]⟩

/-! ### C8: the prune policy -/

/-- C8: `clean_old_processed_papers` returns its input unchanged
whenever the set holds at most 1000 identifiers, and otherwise returns
a 500-element subset of the input; consequently the dedup store
persisted at run end (`savedStore`) never holds more than 1000
identifiers. -/
theorem c8_prune_policy :
    (∀ l : List Str, l.length ≤ 1000 → clean_old_processed_papers l = l) ∧
    (∀ l : List Str, 1000 < l.length →
      (clean_old_processed_papers l).length = 500 ∧
        clean_old_processed_papers l ⊆ l) ∧
    (∀ processed newProcessed : List Str,
      (savedStore processed newProcessed).length ≤ 1000) := by
  refine ⟨?_, ?_, ?_⟩
  · intro l hl
    rw [clean_old_processed_papers, if_neg (by omega)]
  · intro l hl
    rw [clean_old_processed_papers, if_pos (by omega)]
    constructor
    · rw [List.length_drop]
      omega
    · exact List.drop_subset _ l
  · intro processed newProcessed
    rw [savedStore, clean_old_processed_papers]
    split
    · rw [List.length_drop]
      omega
    · omega

/-- Witness for C8: both branches of the prune policy at concrete
stores (a singleton store, and a 1001-element store). -/
theorem c8_prune_policy_witness :
    ([['a']] : List Str).length ≤ 1000 ∧
    clean_old_processed_papers [['a']] = [['a']] ∧
    1000 < ((List.range 1001).map (fun i => natToDigits i)).length ∧
    (clean_old_processed_papers
      ((List.range 1001).map (fun i => natToDigits i))).length = 500 := by
  have h1 : ([['a']] : List Str).length ≤ 1000 := by simp
  have h2 : 1000 < ((List.range 1001).map (fun i => natToDigits i)).length := by
    simp
  exact ⟨h1, c8_prune_policy.1 [['a']] h1, h2,
    (c8_prune_policy.2.1 ((List.range 1001).map (fun i => natToDigits i)) h2).1⟩

/-! ### Step lemmas for the entry-processing loop -/

lemma passesFilters_iff (cfg : Config) (e : Entry) :
    passesFilters cfg e = true ↔
      rejectByRequiredCategories cfg e = false ∧
      rejectByExcludedCategories cfg e = false ∧
      rejectByKeywords cfg e = false := by
  rw [passesFilters]
  simp [Bool.and_eq_true, Bool.not_eq_true', and_assoc]

lemma processEntry_accept (cfg : Config) (gc : Str → Str) (processed : List Str)
    (sw yd : PyDate) (st : LoopState) (e : Entry)
    (hp : passesFilters cfg e = true) :
    processEntry cfg gc processed sw yd st e =
      if processed.contains (entryBaseId e) then
        { st with alreadyProcessedCount := st.alreadyProcessedCount + 1,
                  shownCount := st.shownCount + 1,
                  body := st.body ++
                    renderEntry cfg gc e true (matchingKeywordsOf cfg e) }
      else
        { st with newProcessed := addToSet st.newProcessed (entryBaseId e),
                  newPapersCount := st.newPapersCount + 1,
                  shownCount := st.shownCount + 1,
                  body := st.body ++
                    renderEntry cfg gc e false (matchingKeywordsOf cfg e) } := by
  obtain ⟨h1, h2, h3⟩ := (passesFilters_iff cfg e).mp hp
  rw [processEntry]
  simp only [entryBaseId] at *
  by_cases hc : baseArxivId (entryArxivId e) ∈ processed
  · simp [hc, h1, h2, h3]
  · simp [hc, h1, h2, h3]

lemma processEntry_reject_required (cfg : Config) (gc : Str → Str)
    (processed : List Str) (sw yd : PyDate) (st : LoopState) (e : Entry)
    (hr : rejectByRequiredCategories cfg e = true) :
    processEntry cfg gc processed sw yd st e =
      if processed.contains (entryBaseId e) then
        { st with alreadyProcessedCount := st.alreadyProcessedCount + 1,
                  filteredPapersCount := st.filteredPapersCount + 1 }
      else { st with filteredPapersCount := st.filteredPapersCount + 1 } := by
  rw [processEntry]
  simp only [entryBaseId]
  by_cases hc : baseArxivId (entryArxivId e) ∈ processed
  · simp [hc, hr]
  · simp [hc, hr]

lemma processEntry_reject_excluded (cfg : Config) (gc : Str → Str)
    (processed : List Str) (sw yd : PyDate) (st : LoopState) (e : Entry)
    (h1 : rejectByRequiredCategories cfg e = false)
    (hr : rejectByExcludedCategories cfg e = true) :
    processEntry cfg gc processed sw yd st e =
      if processed.contains (entryBaseId e) then
        { st with alreadyProcessedCount := st.alreadyProcessedCount + 1,
                  filteredPapersCount := st.filteredPapersCount + 1 }
      else { st with filteredPapersCount := st.filteredPapersCount + 1 } := by
  rw [processEntry]
  simp only [entryBaseId]
  by_cases hc : baseArxivId (entryArxivId e) ∈ processed
  · simp [hc, h1, hr]
  · simp [hc, h1, hr]

lemma processEntry_reject_keywords (cfg : Config) (gc : Str → Str)
    (processed : List Str) (sw yd : PyDate) (st : LoopState) (e : Entry)
    (h1 : rejectByRequiredCategories cfg e = false)
    (h2 : rejectByExcludedCategories cfg e = false)
    (hr : rejectByKeywords cfg e = true) :
    processEntry cfg gc processed sw yd st e =
      if processed.contains (entryBaseId e) then
        { st with alreadyProcessedCount := st.alreadyProcessedCount + 1,
                  noKeywordsCount := st.noKeywordsCount + 1 }
      else { st with noKeywordsCount := st.noKeywordsCount + 1 } := by
  rw [processEntry]
  simp only [entryBaseId]
  by_cases hc : baseArxivId (entryArxivId e) ∈ processed
  · simp [hc, h1, h2, hr]
  · simp [hc, h1, h2, hr]

/-- The per-entry dedup update, extracted from the accept branch: the
base id is added to the accumulator when the entry passes the filters
and is not in the loaded store. -/
def dedupStep (P : Entry → Bool) (acc : List Str) (e : Entry) : List Str :=
  if P e then addToSet acc (entryBaseId e) else acc

lemma processEntry_not_passes (cfg : Config) (gc : Str → Str)
    (processed : List Str) (sw yd : PyDate) (st : LoopState) (e : Entry)
    (hp : passesFilters cfg e = false) :
    (processEntry cfg gc processed sw yd st e).newPapersCount =
        st.newPapersCount ∧
      (processEntry cfg gc processed sw yd st e).newProcessed =
        st.newProcessed := by
  by_cases h1 : rejectByRequiredCategories cfg e = true
  · rw [processEntry_reject_required cfg gc processed sw yd st e h1]
    split <;> exact ⟨rfl, rfl⟩
  · rw [Bool.not_eq_true] at h1
    by_cases h2 : rejectByExcludedCategories cfg e = true
    · rw [processEntry_reject_excluded cfg gc processed sw yd st e h1 h2]
      split <;> exact ⟨rfl, rfl⟩
    · rw [Bool.not_eq_true] at h2
      have h3 : rejectByKeywords cfg e = true := by
        rcases h3 : rejectByKeywords cfg e with _ | _
        · rw [(passesFilters_iff cfg e).mpr ⟨h1, h2, h3⟩] at hp
          exact absurd hp (by simp)
        · rfl
      rw [processEntry_reject_keywords cfg gc processed sw yd st e h1 h2 h3]
      split <;> exact ⟨rfl, rfl⟩

lemma processEntry_newPapersCount (cfg : Config) (gc : Str → Str)
    (processed : List Str) (sw yd : PyDate) (st : LoopState) (e : Entry) :
    (processEntry cfg gc processed sw yd st e).newPapersCount =
      st.newPapersCount +
        (if passesFilters cfg e && !processed.contains (entryBaseId e)
         then 1 else 0) := by
  rcases hp : passesFilters cfg e with _ | _
  · rw [(processEntry_not_passes cfg gc processed sw yd st e hp).1]
    simp
  · rw [processEntry_accept cfg gc processed sw yd st e hp]
    by_cases hc : entryBaseId e ∈ processed
    · simp [hc, contains_iff_mem]
    · simp [hc, (contains_eq_false_iff processed (entryBaseId e)).mpr hc]

lemma processEntry_newProcessed (cfg : Config) (gc : Str → Str)
    (processed : List Str) (sw yd : PyDate) (st : LoopState) (e : Entry) :
    (processEntry cfg gc processed sw yd st e).newProcessed =
      dedupStep
        (fun e => passesFilters cfg e && !processed.contains (entryBaseId e))
        st.newProcessed e := by
  rcases hp : passesFilters cfg e with _ | _
  · rw [(processEntry_not_passes cfg gc processed sw yd st e hp).2, dedupStep]
    simp [hp]
  · rw [processEntry_accept cfg gc processed sw yd st e hp, dedupStep]
    by_cases hc : entryBaseId e ∈ processed
    · simp [hp, hc, contains_iff_mem]
    · simp [hp, hc, (contains_eq_false_iff processed (entryBaseId e)).mpr hc]

lemma processEntries_cons (cfg : Config) (gc : Str → Str)
    (processed : List Str) (sw yd : PyDate) (st : LoopState) (e : Entry)
    (rest : List Entry) :
    processEntries cfg gc processed sw yd st (e :: rest) =
      processEntries cfg gc processed sw yd
        (processEntry cfg gc processed sw yd st e) rest := rfl

lemma processEntries_newPapersCount (cfg : Config) (gc : Str → Str)
    (processed : List Str) (sw yd : PyDate) (entries : List Entry) :
    ∀ st : LoopState,
      (processEntries cfg gc processed sw yd st entries).newPapersCount =
        st.newPapersCount +
          entries.countP
            (fun e => passesFilters cfg e && !processed.contains (entryBaseId e)) := by
  induction entries with
  | nil => intro st; simp [processEntries]
  | cons e rest ih =>
    intro st
    rw [processEntries_cons, ih, processEntry_newPapersCount, List.countP_cons]
    split <;> omega

lemma processEntries_newProcessed (cfg : Config) (gc : Str → Str)
    (processed : List Str) (sw yd : PyDate) (entries : List Entry) :
    ∀ st : LoopState,
      (processEntries cfg gc processed sw yd st entries).newProcessed =
        entries.foldl
          (dedupStep
            (fun e => passesFilters cfg e && !processed.contains (entryBaseId e)))
          st.newProcessed := by
  induction entries with
  | nil => intro st; simp [processEntries]
  | cons e rest ih =>
    intro st
    rw [processEntries_cons, ih, List.foldl_cons, processEntry_newProcessed]

lemma mem_foldl_dedupStep_of_mem (P : Entry → Bool) (l : List Entry)
    (acc : List Str) (x : Str) (h : x ∈ acc) :
    x ∈ l.foldl (dedupStep P) acc := by
  induction l generalizing acc with
  | nil => exact h
  | cons e rest ih =>
    rw [List.foldl_cons]
    refine ih (dedupStep P acc e) ?_
    rw [dedupStep]
    split
    · exact mem_addToSet_of_mem acc _ x h
    · exact h

lemma mem_foldl_dedupStep (P : Entry → Bool) (l : List Entry) (acc : List Str)
    (e : Entry) (he : e ∈ l) (hP : P e = true) :
    entryBaseId e ∈ l.foldl (dedupStep P) acc := by
  induction l generalizing acc with
  | nil => exact absurd he (List.not_mem_nil e)
  | cons f rest ih =>
    rw [List.foldl_cons]
    rcases List.mem_cons.mp he with rfl | he'
    · refine mem_foldl_dedupStep_of_mem P rest _ _ ?_
      rw [dedupStep, if_pos hP]
      exact mem_addToSet_self _ _
    · exact ih _ he'

lemma seenBadge_subIn_renderEntry (cfg : Config) (gc : Str → Str) (e : Entry)
    (matching : List Str) :
    subIn seenBeforeBadge (renderEntry cfg gc e true matching) = true := by
  simp only [renderEntry, if_true, List.append_assoc]
  apply subIn_append_left
  apply subIn_append_left
  apply subIn_append_left
  apply subIn_append_left
  exact subIn_self_append _ _

/-- C1: a fetched entry whose base identifier (version stripped) is
already in the loaded processed set and which passes the filter chain
is marked seen-before (the already-processed counter is bumped and its
block carries the seen-before badge), is not counted in the new-papers
count, is not added to the set of newly processed identifiers, and its
block is still appended to the rendered HTML body. -/
theorem c1_seen_before_still_rendered (cfg : Config) (gc : Str → Str)
    (processed : List Str) (sw yd : PyDate) (st : LoopState) (e : Entry)
    (hmem : entryBaseId e ∈ processed)
    (hp : passesFilters cfg e = true) :
    processEntry cfg gc processed sw yd st e =
      { st with alreadyProcessedCount := st.alreadyProcessedCount + 1,
                shownCount := st.shownCount + 1,
                body := st.body ++
                  renderEntry cfg gc e true (matchingKeywordsOf cfg e) } ∧
    subIn seenBeforeBadge
      (renderEntry cfg gc e true (matchingKeywordsOf cfg e)) = true := by
  constructor
  · rw [processEntry_accept cfg gc processed sw yd st e hp,
      if_pos ((contains_iff_mem processed (entryBaseId e)).mpr hmem)]
  · exact seenBadge_subIn_renderEntry cfg gc e (matchingKeywordsOf cfg e)

/-- A concrete entry used by the witnesses: versioned id, one
category, an abstract mentioning alma. -/
def egEntry : Entry :=
  { id := "http://arxiv.org/abs/2501.00001v1".toList,
    title := "A study of dust".toList,
    summary := "We use ALMA data".toList,
    tags := ["astro-ph.GA".toList],
    authors := some ["A. Author".toList],
    links := [],
    arxiv_updated := none,
    updated := none,
    published := some "2025-01-01T00:00:00Z".toList,
    arxiv_created := none }

/-- A concrete configuration used by the witnesses. -/
def egCfg : Config :=
  ⟨some ["astro-ph.ga".toList], some ["ALMA".toList], none,
    some ["astro-ph.sr".toList]⟩

/-- Witness for C1: the seen-before behaviour evaluated on `egEntry`
with its base identifier preloaded in the store. -/
theorem c1_seen_before_still_rendered_witness :
    entryBaseId egEntry ∈ ["2501.00001".toList] ∧
    passesFilters egCfg egEntry = true ∧
    (processEntry egCfg (fun _ => "No comments".toList) ["2501.00001".toList]
        ⟨2025, 1, 1⟩ ⟨2025, 1, 2⟩ initLoopState egEntry =
      { initLoopState with
          alreadyProcessedCount := initLoopState.alreadyProcessedCount + 1,
          shownCount := initLoopState.shownCount + 1,
          body := initLoopState.body ++
            renderEntry egCfg (fun _ => "No comments".toList) egEntry true
              (matchingKeywordsOf egCfg egEntry) } ∧
    subIn seenBeforeBadge
      (renderEntry egCfg (fun _ => "No comments".toList) egEntry true
        (matchingKeywordsOf egCfg egEntry)) = true) :=
  ⟨by decide, by decide,
    c1_seen_before_still_rendered egCfg (fun _ => "No comments".toList)
      ["2501.00001".toList] ⟨2025, 1, 1⟩ ⟨2025, 1, 2⟩ initLoopState egEntry
      (by decide) (by decide)⟩

/-- C3: the filter chain evaluates required-category, then
excluded-category, then keyword-match, short-circuiting on the first
failing predicate — an entry rejected by the required-category check
bumps only the filtered counter (the keyword counter stays untouched),
an entry passing it but hitting an exclusion likewise bumps only the
filtered counter, and an entry passing both category checks with no
keyword match bumps only the no-keywords counter; both category checks
compare case-insensitively, so an entry tagged `astro-ph.CO` passes a
required list containing `astro-ph.co`, and an entry tagged
`ASTRO-PH.SR` hits an exclusion list containing `astro-ph.sr`. -/
theorem c3_filter_chain_order :
    (∀ (cfg : Config) (gc : Str → Str) (processed : List Str) (sw yd : PyDate)
      (st : LoopState) (e : Entry),
      rejectByRequiredCategories cfg e = true →
      processEntry cfg gc processed sw yd st e =
        if processed.contains (entryBaseId e) then
          { st with alreadyProcessedCount := st.alreadyProcessedCount + 1,
                    filteredPapersCount := st.filteredPapersCount + 1 }
        else { st with filteredPapersCount := st.filteredPapersCount + 1 }) ∧
    (∀ (cfg : Config) (gc : Str → Str) (processed : List Str) (sw yd : PyDate)
      (st : LoopState) (e : Entry),
      rejectByRequiredCategories cfg e = false →
      rejectByExcludedCategories cfg e = true →
      processEntry cfg gc processed sw yd st e =
        if processed.contains (entryBaseId e) then
          { st with alreadyProcessedCount := st.alreadyProcessedCount + 1,
                    filteredPapersCount := st.filteredPapersCount + 1 }
        else { st with filteredPapersCount := st.filteredPapersCount + 1 }) ∧
    (∀ (cfg : Config) (gc : Str → Str) (processed : List Str) (sw yd : PyDate)
      (st : LoopState) (e : Entry),
      rejectByRequiredCategories cfg e = false →
      rejectByExcludedCategories cfg e = false →
      rejectByKeywords cfg e = true →
      processEntry cfg gc processed sw yd st e =
        if processed.contains (entryBaseId e) then
          { st with alreadyProcessedCount := st.alreadyProcessedCount + 1,
                    noKeywordsCount := st.noKeywordsCount + 1 }
        else { st with noKeywordsCount := st.noKeywordsCount + 1 }) ∧
    rejectByRequiredCategories
      ⟨some ["astro-ph.co".toList], none, none, none⟩
      { egEntry with tags := ["astro-ph.CO".toList] } = false ∧
    rejectByExcludedCategories
      ⟨none, none, none, some ["astro-ph.sr".toList]⟩
      { egEntry with tags := ["ASTRO-PH.SR".toList] } = true := by
  refine ⟨?_, ?_, ?_, by decide, by decide⟩
  · intro cfg gc processed sw yd st e h1
    exact processEntry_reject_required cfg gc processed sw yd st e h1
  · intro cfg gc processed sw yd st e h1 h2
    exact processEntry_reject_excluded cfg gc processed sw yd st e h1 h2
  · intro cfg gc processed sw yd st e h1 h2 h3
    exact processEntry_reject_keywords cfg gc processed sw yd st e h1 h2 h3

/-- Witness for C3: the keyword-rejection branch evaluated on a
concrete entry whose abstract matches no keyword. -/
theorem c3_filter_chain_order_witness :
    rejectByRequiredCategories egCfg
        { egEntry with summary := "No match here".toList } = false ∧
    rejectByExcludedCategories egCfg
        { egEntry with summary := "No match here".toList } = false ∧
    rejectByKeywords egCfg
        { egEntry with summary := "No match here".toList } = true ∧
    processEntry egCfg (fun _ => []) [] ⟨2025, 1, 1⟩ ⟨2025, 1, 2⟩ initLoopState
        { egEntry with summary := "No match here".toList } =
      if ([] : List Str).contains
          (entryBaseId { egEntry with summary := "No match here".toList }) then
        { initLoopState with
            alreadyProcessedCount := initLoopState.alreadyProcessedCount + 1,
            noKeywordsCount := initLoopState.noKeywordsCount + 1 }
      else
        { initLoopState with
            noKeywordsCount := initLoopState.noKeywordsCount + 1 } :=
  ⟨by decide, by decide, by decide,
    c3_filter_chain_order.2.2.1 egCfg (fun _ => []) [] ⟨2025, 1, 1⟩ ⟨2025, 1, 2⟩
      initLoopState { egEntry with summary := "No match here".toList }
      (by decide) (by decide) (by decide)⟩

lemma baseArxivId_append_v (p n : Str) :
    baseArxivId (p ++ 'v' :: n) = p.takeWhile (fun x => x != 'v') := by
  rw [baseArxivId]
  have hc : (p ++ 'v' :: n).contains 'v' = true :=
    (contains_iff_mem _ 'v').mpr (List.mem_append_right p (List.mem_cons_self 'v' n))
  rw [if_pos hc, splitOnChar_headD, takeWhile_ne_append_cons]

/-- A concrete fetched entry with an old-style identifier whose
category part contains the letter v; `ver` is the version suffix. -/
def c2Entry (ver : Str) : Entry :=
  { id := "http://arxiv.org/abs/solv-int/9701001".toList ++ ver,
    title := [],
    summary := [],
    tags := [],
    authors := none,
    links := [],
    arxiv_updated := none,
    updated := none,
    published := none,
    arxiv_created := none }

/-- Counterexample to C2: for the pair of entries
`solv-int/9701001v1` and `solv-int/9701001v2` (differing only in the
trailing version marker) the computed base identifier is `sol` — not
the identifier with the trailing version marker stripped — and, with
an empty loaded store, processing the pair counts both entries in the
new-papers count (2, not at most 1), even though the newly processed
identifier set receives a single element. -/
theorem c2_counterexample :
    entryArxivId (c2Entry "v1".toList) = "solv-int/9701001v1".toList ∧
    entryArxivId (c2Entry "v2".toList) = "solv-int/9701001v2".toList ∧
    entryBaseId (c2Entry "v1".toList) ≠ "solv-int/9701001".toList ∧
    entryBaseId (c2Entry "v1".toList) = "sol".toList ∧
    (processEntries ⟨none, none, none, none⟩ (fun _ => []) []
        ⟨2025, 1, 1⟩ ⟨2025, 1, 2⟩ initLoopState
        [c2Entry "v1".toList, c2Entry "v2".toList]).newPapersCount = 2 ∧
    (processEntries ⟨none, none, none, none⟩ (fun _ => []) []
        ⟨2025, 1, 1⟩ ⟨2025, 1, 2⟩ initLoopState
        [c2Entry "v1".toList, c2Entry "v2".toList]).newProcessed =
      ["sol".toList] := by
  refine ⟨by decide, by decide, by decide, by decide, by decide, by decide⟩

/-- C2 amended: for every pair of fetched entries whose identifiers
differ only in the trailing version marker, the base identifier
computed for each is the same string (the identifier truncated at its
first letter v — which equals the identifier with the trailing version
marker stripped only when no earlier v occurs); the pipeline adds at
most one element to the newly processed identifier set for the pair,
but when neither entry is already in the loaded store and both pass
the filters, each of the two entries contributes to the new-papers
count. -/
theorem c2_amended_base_id_dedup :
    (∀ p n1 n2 : Str,
      baseArxivId (p ++ 'v' :: n1) = baseArxivId (p ++ 'v' :: n2)) ∧
    (∀ (cfg : Config) (gc : Str → Str) (processed : List Str) (sw yd : PyDate)
      (st : LoopState) (e1 e2 : Entry) (p n1 n2 : Str),
      entryArxivId e1 = p ++ 'v' :: n1 →
      entryArxivId e2 = p ++ 'v' :: n2 →
      passesFilters cfg e1 = true →
      passesFilters cfg e2 = true →
      entryBaseId e1 ∉ processed →
      (processEntries cfg gc processed sw yd st [e1, e2]).newPapersCount =
          st.newPapersCount + 2 ∧
        (processEntries cfg gc processed sw yd st [e1, e2]).newProcessed =
          addToSet st.newProcessed (entryBaseId e1)) := by
  constructor
  · intro p n1 n2
    rw [baseArxivId_append_v, baseArxivId_append_v]
  · intro cfg gc processed sw yd st e1 e2 p n1 n2 h1 h2 hp1 hp2 hmem
    have hb : entryBaseId e2 = entryBaseId e1 := by
      rw [entryBaseId, entryBaseId, h1, h2, baseArxivId_append_v,
        baseArxivId_append_v]
    have hnc1 : ¬ processed.contains (entryBaseId e1) = true :=
      fun h => hmem ((contains_iff_mem _ _).mp h)
    have hnc2 : ¬ processed.contains (entryBaseId e2) = true := by
      rw [hb]; exact hnc1
    have hrun : processEntries cfg gc processed sw yd st [e1, e2] =
        processEntry cfg gc processed sw yd
          (processEntry cfg gc processed sw yd st e1) e2 := rfl
    rw [hrun, processEntry_accept cfg gc processed sw yd st e1 hp1, if_neg hnc1,
      processEntry_accept cfg gc processed sw yd _ e2 hp2, if_neg hnc2]
    constructor
    · rfl
    · show addToSet (addToSet st.newProcessed (entryBaseId e1)) (entryBaseId e2) =
        addToSet st.newProcessed (entryBaseId e1)
      rw [hb]
      exact addToSet_of_mem _ _ (mem_addToSet_self st.newProcessed (entryBaseId e1))

/-- Witness for the amended C2 at a concrete pair of versioned
entries. -/
theorem c2_amended_base_id_dedup_witness :
    entryArxivId { c2Entry [] with
        id := "http://arxiv.org/abs/1234.5678v1".toList } =
      "1234.5678".toList ++ 'v' :: "1".toList ∧
    entryArxivId { c2Entry [] with
        id := "http://arxiv.org/abs/1234.5678v2".toList } =
      "1234.5678".toList ++ 'v' :: "2".toList ∧
    passesFilters ⟨none, none, none, none⟩ { c2Entry [] with
        id := "http://arxiv.org/abs/1234.5678v1".toList } = true ∧
    passesFilters ⟨none, none, none, none⟩ { c2Entry [] with
        id := "http://arxiv.org/abs/1234.5678v2".toList } = true ∧
    entryBaseId { c2Entry [] with
        id := "http://arxiv.org/abs/1234.5678v1".toList } ∉ ([] : List Str) ∧
    (processEntries ⟨none, none, none, none⟩ (fun _ => []) []
          ⟨2025, 1, 1⟩ ⟨2025, 1, 2⟩ initLoopState
          [{ c2Entry [] with id := "http://arxiv.org/abs/1234.5678v1".toList },
           { c2Entry [] with
              id := "http://arxiv.org/abs/1234.5678v2".toList }]).newPapersCount =
        initLoopState.newPapersCount + 2 ∧
      (processEntries ⟨none, none, none, none⟩ (fun _ => []) []
          ⟨2025, 1, 1⟩ ⟨2025, 1, 2⟩ initLoopState
          [{ c2Entry [] with id := "http://arxiv.org/abs/1234.5678v1".toList },
           { c2Entry [] with
              id := "http://arxiv.org/abs/1234.5678v2".toList }]).newProcessed =
        addToSet initLoopState.newProcessed
          (entryBaseId { c2Entry [] with
            id := "http://arxiv.org/abs/1234.5678v1".toList }) :=
  ⟨by decide, by decide, by decide, by decide, by decide,
    c2_amended_base_id_dedup.2 ⟨none, none, none, none⟩ (fun _ => []) []
      ⟨2025, 1, 1⟩ ⟨2025, 1, 2⟩ initLoopState _ _
      "1234.5678".toList "1".toList "2".toList
      (by decide) (by decide) (by decide) (by decide) (by decide)⟩

/-! ### C9: idempotence of a second run -/

lemma accepted_mem_union (cfg : Config) (gc : Str → Str) (processed : List Str)
    (sw yd : PyDate) (entries : List Entry) (e : Entry) (he : e ∈ entries)
    (hp : passesFilters cfg e = true) :
    entryBaseId e ∈
      setUnion processed
        (processEntries cfg gc processed sw yd initLoopState entries).newProcessed := by
  by_cases hc : entryBaseId e ∈ processed
  · exact mem_setUnion_left _ _ _ hc
  · refine mem_setUnion_right _ _ _ ?_
    rw [processEntries_newProcessed]
    refine mem_foldl_dedupStep _ entries _ e he ?_
    simp [hp, contains_eq_false_iff, hc]

/-- C9 amended: when the merged dedup store of the first run is not
pruned (its size stays at most 1000), a second run that starts from
the store persisted by the first run and receives identical upstream
results yields a new-papers count of zero. -/
theorem c9_amended_second_run_zero (cfg : Config) (gc : Str → Str)
    (processed : List Str) (sw yd : PyDate) (entries : List Entry)
    (hsize :
      (setUnion processed
        (processEntries cfg gc processed sw yd initLoopState
          entries).newProcessed).length ≤ 1000) :
    (processEntries cfg gc
      (savedStore processed
        (processEntries cfg gc processed sw yd initLoopState
          entries).newProcessed)
      sw yd initLoopState entries).newPapersCount = 0 := by
  have hclean : savedStore processed
      (processEntries cfg gc processed sw yd initLoopState
        entries).newProcessed =
      setUnion processed
        (processEntries cfg gc processed sw yd initLoopState
          entries).newProcessed := by
    rw [savedStore, clean_old_processed_papers, if_neg (by omega)]
  rw [hclean, processEntries_newPapersCount]
  have hz : entries.countP
      (fun e => passesFilters cfg e &&
        !(setUnion processed
          (processEntries cfg gc processed sw yd initLoopState
            entries).newProcessed).contains (entryBaseId e)) = 0 := by
    rw [List.countP_eq_zero]
    intro e he hpe
    rw [Bool.and_eq_true] at hpe
    obtain ⟨hp, hnc⟩ := hpe
    rw [Bool.not_eq_true'] at hnc
    exact (contains_eq_false_iff _ _).mp hnc
      (accepted_mem_union cfg gc processed sw yd entries e he hp)
  rw [hz]
  rfl

/-- Witness for the amended C9: one new entry, empty starting store,
no pruning; the second run counts zero. -/
theorem c9_amended_second_run_zero_witness :
    (setUnion []
      (processEntries ⟨none, none, none, none⟩ (fun _ => []) []
        ⟨2025, 1, 1⟩ ⟨2025, 1, 2⟩ initLoopState
        [c2Entry "v1".toList]).newProcessed).length ≤ 1000 ∧
    (processEntries ⟨none, none, none, none⟩ (fun _ => [])
      (savedStore []
        (processEntries ⟨none, none, none, none⟩ (fun _ => []) []
          ⟨2025, 1, 1⟩ ⟨2025, 1, 2⟩ initLoopState
          [c2Entry "v1".toList]).newProcessed)
      ⟨2025, 1, 1⟩ ⟨2025, 1, 2⟩ initLoopState
      [c2Entry "v1".toList]).newPapersCount = 0 :=
  ⟨by decide,
    c9_amended_second_run_zero ⟨none, none, none, none⟩ (fun _ => []) []
      ⟨2025, 1, 1⟩ ⟨2025, 1, 2⟩ [c2Entry "v1".toList] (by decide)⟩

/-- A fresh upstream entry with identifier `x<i>` (decimal). -/
def c9Entry (i : Nat) : Entry :=
  { id := 'x' :: natToDigits i,
    title := [],
    summary := [],
    tags := [],
    authors := none,
    links := [],
    arxiv_updated := none,
    updated := none,
    published := none,
    arxiv_created := none }

/-- A previously seen upstream entry with identifier `y`. -/
def c9EntryB : Entry :=
  { id := ['y'],
    title := [],
    summary := [],
    tags := [],
    authors := none,
    links := [],
    arxiv_updated := none,
    updated := none,
    published := none,
    arxiv_created := none }

/-- The fixed upstream result collection for the C9 counterexample:
one seen-before entry followed by 1000 fresh entries. -/
def c9Entries : List Entry := c9EntryB :: (List.range 1000).map c9Entry

/-- The base identifiers of the fresh entries. -/
def c9Bases : List Str := (List.range 1000).map (fun i => 'x' :: natToDigits i)

lemma slash_not_mem_c9id (i : Nat) : '/' ∉ ('x' :: natToDigits i) := by
  intro h
  rcases List.mem_cons.mp h with h | h
  · exact absurd h (by decide)
  · have hd := (List.all_eq_true.mp (natToDigits_all_digit i)) '/' h
    exact absurd hd (by decide)

lemma entryArxivId_c9Entry (i : Nat) :
    entryArxivId (c9Entry i) = 'x' :: natToDigits i := by
  have hns : subIn "/abs/".toList ('x' :: natToDigits i) = false := by
    rcases hs : subIn "/abs/".toList ('x' :: natToDigits i) with _ | _
    · rfl
    · exact absurd (subIn_chars _ _ hs '/' (by decide)) (slash_not_mem_c9id i)
  rw [entryArxivId]
  show (splitOnStr "/abs/".toList ('x' :: natToDigits i)).getLastD [] = _
  rw [splitOnStr_of_not_subIn _ _ hns]
  rfl

lemma entryBaseId_c9Entry (i : Nat) :
    entryBaseId (c9Entry i) = 'x' :: natToDigits i := by
  rw [entryBaseId, entryArxivId_c9Entry, baseArxivId, if_neg]
  intro hc
  rcases List.mem_cons.mp ((contains_iff_mem _ _).mp hc) with h | h
  · exact absurd h (by decide)
  · have hd := (List.all_eq_true.mp (natToDigits_all_digit i)) 'v' h
    exact absurd hd (by decide)

lemma passesFilters_trivial (e : Entry) :
    passesFilters ⟨none, none, none, none⟩ e = true := rfl

lemma natToDigits_injective : Function.Injective natToDigits := by
  intro a b h
  have := congrArg digitsToNat h
  rwa [digitsToNat_natToDigits, digitsToNat_natToDigits] at this

lemma c9Bases_nodup : c9Bases.Nodup := by
  refine (List.nodup_range 1000).map ?_
  intro a b h
  injection h with _ h2
  exact natToDigits_injective h2

lemma y_not_mem_c9Bases : (['y'] : Str) ∉ c9Bases := by
  intro h
  rw [c9Bases, List.mem_map] at h
  obtain ⟨i, _, hi⟩ := h
  injection hi with h1 _
  exact absurd h1 (by decide)

lemma foldl_dedupStep_all_fresh (P : Entry → Bool) (l : List Entry) :
    ∀ acc : List Str, (∀ e ∈ l, P e = true) →
      (l.map entryBaseId).Nodup →
      (∀ e ∈ l, entryBaseId e ∉ acc) →
      l.foldl (dedupStep P) acc = acc ++ l.map entryBaseId := by
  induction l with
  | nil => intro acc _ _ _; simp
  | cons e rest ih =>
    intro acc hP hnd hdisj
    rw [List.foldl_cons, dedupStep, if_pos (hP e (List.mem_cons_self e rest)),
      addToSet,
      if_neg (fun h => hdisj e (List.mem_cons_self e rest)
        ((contains_iff_mem _ _).mp h))]
    rw [List.map_cons] at hnd
    have hndtail := (List.nodup_cons.mp hnd).2
    have hhead := (List.nodup_cons.mp hnd).1
    rw [ih (acc ++ [entryBaseId e])
      (fun e' he' => hP e' (List.mem_cons_of_mem e he'))
      hndtail
      ?_]
    · simp
    · intro e' he' hmem'
      rcases List.mem_append.mp hmem' with h | h
      · exact hdisj e' (List.mem_cons_of_mem e he') h
      · rw [List.mem_singleton] at h
        exact hhead (h ▸ List.mem_map_of_mem entryBaseId he')

lemma c9_run1_newProcessed :
    (processEntries ⟨none, none, none, none⟩ (fun _ => []) [['y']]
      ⟨2025, 1, 1⟩ ⟨2025, 1, 2⟩ initLoopState c9Entries).newProcessed =
      c9Bases := by
  rw [processEntries_newProcessed]
  show c9Entries.foldl
      (dedupStep (fun e => passesFilters ⟨none, none, none, none⟩ e &&
        !([['y']] : List Str).contains (entryBaseId e))) [] = c9Bases
  rw [c9Entries, List.foldl_cons]
  have hB : dedupStep
      (fun e => passesFilters ⟨none, none, none, none⟩ e &&
        !([['y']] : List Str).contains (entryBaseId e)) [] c9EntryB = [] := by
    decide
  rw [hB]
  rw [foldl_dedupStep_all_fresh _ _ [] ?_ ?_ ?_]
  · rw [List.nil_append, List.map_map, c9Bases]
    exact List.map_congr_left (fun i _ => entryBaseId_c9Entry i)
  · intro e he
    rw [List.mem_map] at he
    obtain ⟨i, _, rfl⟩ := he
    rw [Bool.and_eq_true]
    refine ⟨passesFilters_trivial _, ?_⟩
    rw [Bool.not_eq_true', contains_eq_false_iff, entryBaseId_c9Entry]
    intro h
    rw [List.mem_singleton] at h
    injection h with h1 _
    exact absurd h1 (by decide)
  · rw [List.map_map]
    have : ((List.range 1000).map (entryBaseId ∘ c9Entry)) = c9Bases := by
      rw [c9Bases]
      exact List.map_congr_left (fun i _ => entryBaseId_c9Entry i)
    rw [this]
    exact c9Bases_nodup
  · intro e _ h
    exact absurd h (List.not_mem_nil _)

lemma c9_store2 : savedStore [['y']] c9Bases = c9Bases.drop 500 := by
  have hlen : (setUnion [['y']] c9Bases).length = 1001 := by
    rw [setUnion, List.filter_eq_self.mpr ?_]
    · simp [c9Bases]
    · intro b hb
      rw [Bool.not_eq_true', contains_eq_false_iff]
      intro h
      rw [List.mem_singleton] at h
      exact y_not_mem_c9Bases (h ▸ hb)
  have hunion : setUnion [['y']] c9Bases = ['y'] :: c9Bases := by
    rw [setUnion, List.filter_eq_self.mpr ?_]
    · exact List.singleton_append
    · intro b hb
      rw [Bool.not_eq_true', contains_eq_false_iff]
      intro h
      rw [List.mem_singleton] at h
      exact y_not_mem_c9Bases (h ▸ hb)
  rw [savedStore, clean_old_processed_papers, if_pos (by omega), hlen, hunion]
  show (['y'] :: c9Bases).drop 501 = c9Bases.drop 500
  exact List.drop_succ_cons

/-- Counterexample to C9: with a loaded store holding only the base
identifier `y`, and upstream results consisting of the seen-before
entry `y` followed by 1000 fresh entries, the first run pushes the
merged store to 1001 identifiers, the prune drops `y`, and a second
run over the identical upstream results counts the `y` entry as new
again — the second-run new-papers count is not zero. -/
theorem c9_counterexample :
    (processEntries ⟨none, none, none, none⟩ (fun _ => [])
      (savedStore [['y']]
        (processEntries ⟨none, none, none, none⟩ (fun _ => []) [['y']]
          ⟨2025, 1, 1⟩ ⟨2025, 1, 2⟩ initLoopState c9Entries).newProcessed)
      ⟨2025, 1, 1⟩ ⟨2025, 1, 2⟩ initLoopState c9Entries).newPapersCount ≠ 0 := by
  rw [c9_run1_newProcessed, c9_store2, processEntries_newPapersCount]
  have hpos : 0 < c9Entries.countP
      (fun e => passesFilters ⟨none, none, none, none⟩ e &&
        !(c9Bases.drop 500).contains (entryBaseId e)) := by
    rw [List.countP_pos_iff]
    refine ⟨c9EntryB, List.mem_cons_self _ _, ?_⟩
    rw [Bool.and_eq_true]
    refine ⟨passesFilters_trivial _, ?_⟩
    rw [Bool.not_eq_true', contains_eq_false_iff]
    intro h
    have hmem : entryBaseId c9EntryB ∈ c9Bases := List.drop_subset 500 c9Bases h
    have hEB : entryBaseId c9EntryB = ['y'] := by decide
    rw [hEB] at hmem
    exact y_not_mem_c9Bases hmem
  have h0 : initLoopState.newPapersCount = 0 := rfl
  omega

/-! ### C7: pagination loop invariants and termination -/

/-- Loop invariant of the pagination state: while the loop runs, the
offset is the page size times the number of requests made; every
request was issued at an offset below the cap; and every request that
was followed by another one hit a full page. -/
def FetchInv (fetchAt : Nat → Option (List Entry)) (cap : Nat)
    (st : FetchState) : Prop :=
  (st.done = false → st.start = maxResultsPerCall * st.requests) ∧
  (∀ j, j < st.requests → maxResultsPerCall * j < cap) ∧
  (st.done = false → ∀ j, j < st.requests → fullPage fetchAt j) ∧
  (st.done = true → ∀ j, j + 1 < st.requests → fullPage fetchAt j)

lemma fetchStep_inv (fetchAt : Nat → Option (List Entry)) (cap : Nat)
    (st : FetchState) (h : FetchInv fetchAt cap st) :
    FetchInv fetchAt cap (fetchStep fetchAt cap st) := by
  obtain ⟨h1, h2, h3, h4⟩ := h
  by_cases hd : st.done = true
  · rw [fetchStep, if_pos hd]
    exact ⟨h1, h2, h3, h4⟩
  · rw [Bool.not_eq_true] at hd
    have hstart := h1 hd
    have hfull := h3 hd
    rw [fetchStep, if_neg (by simp [hd])]
    by_cases hlt : st.start < cap
    · rw [if_pos hlt]
      have hoff : maxResultsPerCall * st.requests < cap := hstart ▸ hlt
      rcases hf : fetchAt st.start with _ | page
      all_goals dsimp only
      · refine ⟨by simp, ?_, by simp, ?_⟩
        · intro j hj
          dsimp only at hj
          rcases Nat.lt_succ_iff_lt_or_eq.mp hj with hj | rfl
          · exact h2 j hj
          · exact hoff
        · intro _ j hj
          dsimp only at hj
          exact hfull j (by omega)
      · by_cases hemp : page.isEmpty = true
        · rw [if_pos hemp]
          refine ⟨by simp, ?_, by simp, ?_⟩
          · intro j hj
            dsimp only at hj
            rcases Nat.lt_succ_iff_lt_or_eq.mp hj with hj | rfl
            · exact h2 j hj
            · exact hoff
          · intro _ j hj
            dsimp only at hj
            exact hfull j (by omega)
        · rw [if_neg hemp]
          by_cases hlen : page.length < maxResultsPerCall
          · rw [if_pos hlen]
            refine ⟨by simp, ?_, by simp, ?_⟩
            · intro j hj
              dsimp only at hj
              rcases Nat.lt_succ_iff_lt_or_eq.mp hj with hj | rfl
              · exact h2 j hj
              · exact hoff
            · intro _ j hj
              dsimp only at hj
              exact hfull j (by omega)
          · rw [if_neg hlen]
            refine ⟨?_, ?_, ?_, by simp [hd]⟩
            · intro _
              dsimp only
              rw [hstart]
              ring
            · intro j hj
              dsimp only at hj
              rcases Nat.lt_succ_iff_lt_or_eq.mp hj with hj | rfl
              · exact h2 j hj
              · exact hoff
            · intro _ j hj
              dsimp only at hj
              rcases Nat.lt_succ_iff_lt_or_eq.mp hj with hj | rfl
              · exact hfull j hj
              · exact ⟨page, hstart ▸ hf, by omega⟩
    · rw [if_neg hlt]
      refine ⟨by simp, h2, by simp, ?_⟩
      intro _ j hj
      dsimp only at hj
      exact hfull j (by omega)

lemma fetchRun_inv (fetchAt : Nat → Option (List Entry)) (cap : Nat) :
    ∀ (fuel : Nat) (st : FetchState), FetchInv fetchAt cap st →
      FetchInv fetchAt cap (fetchRun fetchAt cap fuel st) := by
  intro fuel
  induction fuel with
  | zero => intro st h; exact h
  | succ fuel ih =>
    intro st h
    exact ih _ (fetchStep_inv fetchAt cap st h)

lemma fetchStep_done (fetchAt : Nat → Option (List Entry)) (cap : Nat)
    (st : FetchState) (hd : st.done = true) : fetchStep fetchAt cap st = st := by
  rw [fetchStep, if_pos hd]

lemma fetchRun_done_stable (fetchAt : Nat → Option (List Entry)) (cap : Nat) :
    ∀ (fuel : Nat) (st : FetchState), st.done = true →
      fetchRun fetchAt cap fuel st = st := by
  intro fuel
  induction fuel with
  | zero => intro st _; rfl
  | succ fuel ih =>
    intro st hd
    rw [fetchRun, fetchStep_done fetchAt cap st hd, ih st hd]

lemma fetchStep_progress (fetchAt : Nat → Option (List Entry)) (cap : Nat)
    (st : FetchState) (hd : st.done = false) :
    (fetchStep fetchAt cap st).done = true ∨
      (fetchStep fetchAt cap st).requests = st.requests + 1 := by
  rw [fetchStep, if_neg (by simp [hd])]
  by_cases hlt : st.start < cap
  · rw [if_pos hlt]
    rcases fetchAt st.start with _ | page
    all_goals dsimp only
    · exact Or.inl rfl
    · by_cases hemp : page.isEmpty = true
      · rw [if_pos hemp]
        exact Or.inl rfl
      · rw [if_neg hemp]
        by_cases hlen : page.length < maxResultsPerCall
        · rw [if_pos hlen]
          exact Or.inl rfl
        · rw [if_neg hlen]
          exact Or.inr rfl
  · rw [if_neg hlt]
    exact Or.inl rfl

lemma fetchRun_progress (fetchAt : Nat → Option (List Entry)) (cap : Nat) :
    ∀ (fuel : Nat) (st : FetchState), st.done = false →
      (fetchRun fetchAt cap fuel st).done = true ∨
        st.requests + fuel ≤ (fetchRun fetchAt cap fuel st).requests := by
  intro fuel
  induction fuel with
  | zero =>
    intro st _
    right
    rw [show fetchRun fetchAt cap 0 st = st from rfl]
    omega
  | succ fuel ih =>
    intro st hd
    rw [fetchRun]
    rcases hstep : (fetchStep fetchAt cap st).done with _ | _
    · rcases ih (fetchStep fetchAt cap st) hstep with h | h
      · exact Or.inl h
      · rcases fetchStep_progress fetchAt cap st hd with h' | h'
        · rw [h'] at hstep
          exact absurd hstep (by simp)
        · right
          omega
    · rw [fetchRun_done_stable fetchAt cap fuel _ hstep]
      exact Or.inl hstep

lemma requests_le_ceil (cap r : Nat)
    (h : ∀ j, j < r → maxResultsPerCall * j < cap) :
    r ≤ (cap + maxResultsPerCall - 1) / maxResultsPerCall := by
  rcases r with _ | k
  · exact Nat.zero_le _
  · have hk := h k (by omega)
    rw [maxResultsPerCall] at *
    rw [Nat.le_div_iff_mul_le (by omega)]
    omega

/-- C7: for every keyword batch (modelled by the fetch oracle
`fetchAt`), the pagination loop reaches its final state within
`ceil(cap / page size) + 1` iterations of the while loop; it issues at
most `ceil(cap / page size)` requests, every request is issued at an
offset below the cap, and whenever a further page request was issued
the previous page was a successful fetch of at least the full page
size (so a failed fetch, a malformed response, an empty page or a
short page stops the loop). -/
theorem c7_pagination_terminates (fetchAt : Nat → Option (List Entry))
    (cap fuel : Nat)
    (hfuel : (cap + maxResultsPerCall - 1) / maxResultsPerCall + 1 ≤ fuel) :
    (fetchRun fetchAt cap fuel fetchInit).done = true ∧
    (fetchRun fetchAt cap fuel fetchInit).requests ≤
      (cap + maxResultsPerCall - 1) / maxResultsPerCall ∧
    (∀ j, j < (fetchRun fetchAt cap fuel fetchInit).requests →
      maxResultsPerCall * j < cap) ∧
    (∀ j, j + 1 < (fetchRun fetchAt cap fuel fetchInit).requests →
      fullPage fetchAt j) := by
  have hinv0 : FetchInv fetchAt cap fetchInit := by
    refine ⟨fun _ => rfl, ?_, ?_, ?_⟩
    · intro j hj
      exact absurd hj (by simp [fetchInit])
    · intro _ j hj
      exact absurd hj (by simp [fetchInit])
    · intro hcontra
      exact absurd hcontra (by simp [fetchInit])
  obtain ⟨h1, h2, h3, h4⟩ := fetchRun_inv fetchAt cap fuel fetchInit hinv0
  have hbound := requests_le_ceil cap _ h2
  have hdone : (fetchRun fetchAt cap fuel fetchInit).done = true := by
    rcases fetchRun_progress fetchAt cap fuel fetchInit rfl with hd | hge
    · exact hd
    · exfalso
      have h0 : fetchInit.requests = 0 := rfl
      omega
  exact ⟨hdone, hbound, h2, h4 hdone⟩

/-- Witness for C7 at a concrete failing oracle and cap 400: three
loop iterations finish the batch. -/
theorem c7_pagination_terminates_witness :
    (400 + maxResultsPerCall - 1) / maxResultsPerCall + 1 ≤ 3 ∧
    ((fetchRun (fun _ => none) 400 3 fetchInit).done = true ∧
     (fetchRun (fun _ => none) 400 3 fetchInit).requests ≤
       (400 + maxResultsPerCall - 1) / maxResultsPerCall ∧
     (∀ j, j < (fetchRun (fun _ => none) 400 3 fetchInit).requests →
       maxResultsPerCall * j < 400) ∧
     (∀ j, j + 1 < (fetchRun (fun _ => none) 400 3 fetchInit).requests →
       fullPage (fun _ => none) j)) :=
  ⟨by decide, c7_pagination_terminates (fun _ => none) 400 3 (by decide)⟩
